import Mathlib

/-!
# Verification of the markdown-to-PDF converter (scripts/md_to_pdf.py)

A shallow embedding of the text-processing core of the converter:
the XML escaper, the inline-markup rewriter, the table parser and
normalizer, the code-line hard-wrapper, and the line classifier that
drives the whole conversion.  Text is modelled as `List Char`; each
Python function is translated into an executable Lean function of the
same shape, and the main loop of `convert_md_to_pdf` becomes a fold of
a `step` function over the input lines.  Rendering-only data (colors,
fonts, column widths, page callbacks) is outside the embedding; the
block/flowable sequence handed to the rendering engine is modelled by
the inductive type `Flowable`.
-/

set_option maxRecDepth 4000

/-- Whitespace characters recognised by Python's `str.strip` and the
regex class `\s` (restricted to the ASCII range, which is all the
converter's input lines can contain after splitting on newlines). -/
def isPySpace (c : Char) : Bool :=
  c = ' ' || c = '\t' || c = '\n' || c = '\r' || c = Char.ofNat 11 || c = Char.ofNat 12

/-- Python `str.lstrip()`. -/
def lstrip (s : List Char) : List Char := s.dropWhile isPySpace

/-- Python `str.rstrip()`. -/
def rstrip (s : List Char) : List Char := (s.reverse.dropWhile isPySpace).reverse

/-- Python `str.strip()`. -/
def pyStrip (s : List Char) : List Char := lstrip (rstrip s)

/-- Helper for `splitOnC`: prepend a character to the first chunk. -/
def consHead (c : Char) : List (List Char) → List (List Char)
  | [] => [[c]]
  | r :: rs => (c :: r) :: rs

/-- Python `str.split(sep)` for a one-character separator: splits into
chunks, keeping empty chunks, so that the number of chunks is one more
than the number of separators. -/
def splitOnC (sep : Char) : List Char → List (List Char)
  | [] => [[]]
  | c :: rest => if c = sep then [] :: splitOnC sep rest else consHead c (splitOnC sep rest)

/-- Replacement text for `&` (source: `escape_xml`). -/
def ampRep : List Char := "&amp;".toList

/-- Replacement text for `<` (source: `escape_xml`). -/
def ltRep : List Char := "&lt;".toList

/-- Replacement text for `>` (source: `escape_xml`). -/
def gtRep : List Char := "&gt;".toList

/-- One character of the first `text.replace` pass of `escape_xml`. -/
def escAmp (c : Char) : List Char := if c = '&' then ampRep else [c]

/-- One character of the second `text.replace` pass of `escape_xml`. -/
def escLt (c : Char) : List Char := if c = '<' then ltRep else [c]

/-- One character of the third `text.replace` pass of `escape_xml`. -/
def escGt (c : Char) : List Char := if c = '>' then gtRep else [c]

/-- `escape_xml`: three sequential global replacements, `&` first,
then `<`, then `>`, exactly as in the source. -/
def escape_xml (t : List Char) : List Char :=
  ((t.flatMap escAmp).flatMap escLt).flatMap escGt

/-- The emphasis marker character. -/
def star : Char := '*'

/-- The inline-code marker character (backquote, U+0060). -/
def btick : Char := Char.ofNat 96

/-- Find the shortest non-empty group followed by the closing
delimiter `d`: given the text after an opening delimiter, return
`some (group, rest)` where `group` is the shortest prefix of length
at least one containing no character rejected by `bad` such that `d`
follows it, and `rest` is the text after that closing `d`.  This is
the non-greedy group search of the patterns in
`apply_inline_formatting` (`bad` rejects the newline for the `.`-based
patterns and the backquote for the inline-code pattern). -/
def findClose (d : List Char) (bad : Char → Bool) :
    List Char → Option (List Char × List Char)
  | [] => none
  | c :: rest =>
    if bad c then none
    else if d.isPrefixOf rest then some ([c], rest.drop d.length)
    else
      match findClose d bad rest with
      | some (g, after) => some (c :: g, after)
      | none => none

/-- One global, left-to-right, non-overlapping substitution pass, as
performed by `re.sub` on the patterns of `apply_inline_formatting`:
at each position, if the delimiter `d` opens a full match, replace
`d group d` by `pre ++ group ++ post` and continue after the match;
otherwise emit the character and move one position right.  `fuel`
bounds the recursion; it is instantiated with the text length, which
is sufficient since every step consumes at least one character. -/
def subScanAux (d : List Char) (bad : Char → Bool) (pre post : List Char) :
    Nat → List Char → List Char
  | _, [] => []
  | 0, s => s
  | fuel + 1, c :: rest =>
    if d.isPrefixOf (c :: rest) then
      match findClose d bad ((c :: rest).drop d.length) with
      | some (g, after) => pre ++ g ++ post ++ subScanAux d bad pre post fuel after
      | none => c :: subScanAux d bad pre post fuel rest
    else c :: subScanAux d bad pre post fuel rest

/-- One `re.sub` pass over a whole text. -/
def subScan (d : List Char) (bad : Char → Bool) (pre post s : List Char) : List Char :=
  subScanAux d bad pre post s.length s

/-- Opening replacement of the bold+italic pattern. -/
def biOpen : List Char := "<b><i>".toList

/-- Closing replacement of the bold+italic pattern. -/
def biClose : List Char := "</i></b>".toList

/-- Opening replacement of the bold pattern. -/
def bOpen : List Char := "<b>".toList

/-- Closing replacement of the bold pattern. -/
def bClose : List Char := "</b>".toList

/-- Opening replacement of the italic pattern. -/
def iOpen : List Char := "<i>".toList

/-- Closing replacement of the italic pattern. -/
def iClose : List Char := "</i>".toList

/-- Opening replacement of the inline-code pattern; the color is
`ACCENT2.hexval()[2:] = 818cf8`. -/
def codeOpen : List Char := "<font face=\"Courier\" color=\"#818cf8\">".toList

/-- Closing replacement of the inline-code pattern. -/
def codeClose : List Char := "</font>".toList

/-- The newline character, which `.` in the patterns never matches. -/
def isNL (c : Char) : Bool := c = '\n'

/-- The character class `[^...]` of the inline-code pattern rejects
the backquote. -/
def isBtick (c : Char) : Bool := c = btick

/-- `apply_inline_formatting`: four `re.sub` passes in source order,
bold+italic (`***`), then bold (`**`), then italic (`*`), then inline
code (backquote). -/
def apply_inline_formatting (t : List Char) : List Char :=
  subScan [btick] isBtick codeOpen codeClose
    (subScan [star] isNL iOpen iClose
      (subScan [star, star] isNL bOpen bClose
        (subScan [star, star, star] isNL biOpen biClose t)))

/-- The composition used by every text-rendering branch of the
converter: escape the reserved characters first, interpret inline
markup second. -/
def formatText (t : List Char) : List Char :=
  apply_inline_formatting (escape_xml t)

/-- Python `line.startswith('|')`. -/
def startsWithPipe : List Char → Bool
  | [] => false
  | c :: _ => c = '|'

/-- The cells extracted from one (already stripped) table line:
`[c.strip() for c in line.split('|')[1:-1]]`, i.e. the chunks strictly
between the first and the last pipe, each stripped. -/
def rowCells (l : List Char) : List (List Char) :=
  (((splitOnC '|' l).drop 1).dropLast).map pyStrip

/-- A cell matching the separator pattern `^[-:]+$`. -/
def isSepCellB (c : List Char) : Bool :=
  !c.isEmpty && c.all (fun ch => ch = '-' || ch = ':')

/-- The separator-row test of `parse_table`:
`cells and all(re.match(r'^[-:]+$', c) for c in cells)`. -/
def isSepRow (cells : List (List Char)) : Bool :=
  !cells.isEmpty && cells.all isSepCellB

/-- One iteration of the `for line in lines` loop of `parse_table`:
strip the line, and if it starts with a pipe, extract its cells,
skipping separator rows. -/
def tableStep (rows : List (List (List Char))) (line : List Char) :
    List (List (List Char)) :=
  if startsWithPipe (pyStrip line) then
    if isSepRow (rowCells (pyStrip line)) then rows
    else rows ++ [rowCells (pyStrip line)]
  else rows

/-- `parse_table`: fold the per-line step over the buffered lines. -/
def parse_table (lines : List (List Char)) : List (List (List Char)) :=
  lines.foldl tableStep []

/-- The text transformation applied to each body cell of a table:
`apply_inline_formatting(escape_xml(c))`. -/
def fmtCell (c : List Char) : List Char := formatText c

/-- Normalization of one body row in `build_table_flowable`: pad with
empty cells up to the header width (`while len(row) < len(header):
row.append('')`), truncate to the header width (`row[:len(header)]`),
and format each cell. -/
def tableBodyRow (header row : List (List Char)) : List (List Char) :=
  ((row ++ List.replicate (header.length - row.length) []).take header.length).map fmtCell

/-- The cell data built by `build_table_flowable`: `none` when the row
list is empty (the `if not rows: return None` branch), otherwise the
header row with each cell only XML-escaped, followed by the normalized
body rows.  Column widths and visual styling carry no text content and
are outside the embedding. -/
def build_table_data (rows : List (List (List Char))) :
    Option (List (List (List Char))) :=
  match rows with
  | [] => none
  | header :: body => some (header.map escape_xml :: body.map (tableBodyRow header))

/-- The `while len(cl) > 95` wrapping loop, with explicit fuel; fuel
equal to the line length is enough since each iteration removes 95
characters. -/
def wrapLineAux : Nat → List Char → List (List Char)
  | 0, cl => [cl]
  | fuel + 1, cl =>
    if 95 < cl.length then cl.take 95 :: wrapLineAux fuel (cl.drop 95)
    else [cl]

/-- Hard-wrap one code line at width 95. -/
def wrapLine (cl : List Char) : List (List Char) := wrapLineAux cl.length cl

/-- Python `'\n'.join(...)` on a list of lines. -/
def joinNL : List (List Char) → List Char
  | [] => []
  | [l] => l
  | l :: ls => l ++ '\n' :: joinNL ls

/-- The long-line wrapping performed when a code block closes: split
the escaped code text on newlines, hard-wrap every line at 95, and
rejoin with newlines. -/
def wrapCode (code : List Char) : List Char :=
  joinNL ((splitOnC '\n' code).flatMap wrapLine)

/-- The named paragraph styles used by the converter's story. -/
inductive Style
  | body
  | h1
  | h2
  | h3
  | blockquote
  | bullet
  | divider_text
  deriving DecidableEq, Repr

/-- The flowables appended to `story`, keeping only their text
content: `Paragraph(text, style)`, `Preformatted(text, code_style)`,
the table cell grid, `Spacer(1, h)`, and `HRFlowable`. -/
inductive Flowable
  | Par (text : List Char) (style : Style)
  | Pre (text : List Char)
  | TableFl (data : List (List (List Char)))
  | SpacerFl (h : Nat)
  | HRFl
  deriving DecidableEq, Repr

/-- The code-fence marker: three backquotes. -/
def fence : List Char := [btick, btick, btick]

/-- The table-row trigger of the classifier:
`stripped.startswith('|') and '|' in stripped[1:]`. -/
def isTableLine (s : List Char) : Bool :=
  startsWithPipe s && (s.drop 1).any (fun c => c = '|')

/-- The horizontal-rule test: `^-{3,}$` or `^\*{3,}$`. -/
def isHR (s : List Char) : Bool :=
  (3 ≤ s.length && s.all (fun c => c = '-')) || (3 ≤ s.length && s.all (fun c => c = '*'))

/-- Substring containment, as Python's `in` on strings. -/
def containsSub (pat : List Char) : List Char → Bool
  | [] => pat.isEmpty
  | c :: rest => pat.isPrefixOf (c :: rest) || containsSub pat rest

/-- The ASCII-art banner test: a `#` line containing `═`, `██`, `╔`
or `╚`. -/
def isArtBanner (s : List Char) : Bool :=
  (match s with
    | '#' :: _ => true
    | _ => false) &&
  (s.any (fun c => c = '═') || containsSub ['█', '█'] s ||
    s.any (fun c => c = '╔') || s.any (fun c => c = '╚'))

/-- The character class `[A-Z╔╚║├└┌┐│]` of the comment-banner
pattern. -/
def isBannerClassChar (c : Char) : Bool :=
  ('A' ≤ c && c ≤ 'Z') || c = '╔' || c = '╚' || c = '║' || c = '├' ||
    c = '└' || c = '┌' || c = '┐' || c = '│'

/-- The comment-style banner pattern `^#\s+[A-Z╔╚║├└┌┐│]`: a `#`,
at least one whitespace character, then a character of the class.
(Backtracking inside `\s+` never helps because no whitespace character
is in the class, so the greedy reading is exact.) -/
def commentBannerMatch : List Char → Bool
  | '#' :: c :: rest =>
    isPySpace c &&
      (match (c :: rest).dropWhile isPySpace with
        | d :: _ => isBannerClassChar d
        | [] => false)
  | _ => false

/-- The numbered-list pattern `^(\d+)\.\s`: on success, the literal
digit group and the text after the matched prefix (digits, the dot and
one whitespace character).  Backtracking inside `\d+` never helps
because a digit is not a dot, so the greedy reading is exact. -/
def numberedMatch (s : List Char) : Option (List Char × List Char) :=
  let digs := s.takeWhile Char.isDigit
  if digs.isEmpty then none
  else
    match s.drop digs.length with
    | '.' :: c :: rest => if isPySpace c then some (digs, rest) else none
    | _ => none

/-- The bullet pattern `^[-*]\s`. -/
def bulletMatch : List Char → Bool
  | m :: c :: _ => (m = '-' || m = '*') && isPySpace c
  | _ => false

/-- Python `stripped.startswith('>')`. -/
def startsWithGt : List Char → Bool
  | [] => false
  | c :: _ => c = '>'

/-- Python `stripped.startswith('★')`. -/
def startsWithFootnoteStar : List Char → Bool
  | [] => false
  | c :: _ => c = '★'

/-- The mutable loop state of `convert_md_to_pdf`. -/
structure ConvState where
  story : List Flowable
  in_code_block : Bool
  code_lines : List (List Char)
  in_table : Bool
  table_lines : List (List Char)
  deriving DecidableEq, Repr

/-- The state at loop entry. -/
def initState : ConvState := ⟨[], false, [], false, []⟩

/-- The flowables appended by a mid-document table flush: the table
and a `Spacer(1, 6)` when the parsed rows build a table, nothing
otherwise (`if tbl:` guards both appends). -/
def tableFlowablesMid (tl : List (List Char)) : List Flowable :=
  match build_table_data (parse_table tl) with
  | some data => [Flowable.TableFl data, Flowable.SpacerFl 6]
  | none => []

/-- The flowables appended by the end-of-input table flush: the table
alone when it builds, nothing otherwise. -/
def tableFlowablesEnd (tl : List (List Char)) : List Flowable :=
  match build_table_data (parse_table tl) with
  | some data => [Flowable.TableFl data]
  | none => []

/-- Flush an active table buffer mid-document. -/
def flushTable (st : ConvState) : ConvState :=
  { st with story := st.story ++ tableFlowablesMid st.table_lines,
            in_table := false, table_lines := [] }

/-- Close a code block: escape the joined buffer, hard-wrap long
lines, append the `Preformatted` flowable, and clear the buffer. -/
def closeCodeBlock (st : ConvState) : ConvState :=
  { st with story := st.story ++ [Flowable.Pre (wrapCode (escape_xml (joinNL st.code_lines)))],
            code_lines := [], in_code_block := false }

/-- The literal prefix `##`. -/
def hashPrefix2 : List Char := "##".toList

/-- The literal prefix of a level-1 heading. -/
def h1Prefix : List Char := "# ".toList

/-- The literal prefix of a level-2 heading. -/
def h2Prefix : List Char := "## ".toList

/-- The literal prefix of a level-3 heading. -/
def h3Prefix : List Char := "### ".toList

/-- The bullet text prefix `&bull; ` of the bullet branch. -/
def bullPrefix : List Char := "&bull; ".toList

/-- Classification of one stripped line once code and table buffering
are out of the way: the branches from the blank-line check down to the
plain-paragraph fallback, in source order. -/
def classify (st : ConvState) (stripped : List Char) : ConvState :=
  if stripped.isEmpty then st
  else if isHR stripped then
    { st with story := st.story ++ [Flowable.SpacerFl 6, Flowable.HRFl] }
  else if isArtBanner stripped then
    { st with story := st.story ++
        [Flowable.Par (escape_xml (pyStrip (stripped.dropWhile (fun c => c = '#')))) Style.divider_text] }
  else if commentBannerMatch stripped && !(hashPrefix2.isPrefixOf stripped) then
    { st with story := st.story ++
        [Flowable.Par (escape_xml (pyStrip (stripped.dropWhile (fun c => c = '#')))) Style.divider_text] }
  else if h1Prefix.isPrefixOf stripped && !(h2Prefix.isPrefixOf stripped) then
    { st with story := st.story ++
        [Flowable.Par (formatText (pyStrip (stripped.drop 2))) Style.h1] }
  else if h2Prefix.isPrefixOf stripped then
    { st with story := st.story ++
        [Flowable.SpacerFl 8, Flowable.Par (formatText (pyStrip (stripped.drop 3))) Style.h2] }
  else if h3Prefix.isPrefixOf stripped then
    { st with story := st.story ++
        [Flowable.Par (formatText (pyStrip (stripped.drop 4))) Style.h3] }
  else if startsWithGt stripped then
    { st with story := st.story ++
        [Flowable.Par (formatText (pyStrip (stripped.dropWhile (fun c => c = '>')))) Style.blockquote] }
  else if bulletMatch stripped then
    { st with story := st.story ++
        [Flowable.Par (bullPrefix ++ formatText (pyStrip (stripped.drop 2))) Style.bullet] }
  else
    match numberedMatch stripped with
    | some (num, restText) =>
      { st with story := st.story ++
          [Flowable.Par (num ++ ". ".toList ++ formatText (pyStrip restText)) Style.bullet] }
    | none =>
      if startsWithFootnoteStar stripped then
        { st with story := st.story ++ [Flowable.Par (formatText stripped) Style.blockquote] }
      else
        { st with story := st.story ++ [Flowable.Par (formatText stripped) Style.body] }

/-- One iteration of the `while i < len(lines)` loop of
`convert_md_to_pdf`: code-fence toggling first, verbatim buffering
inside a code block, table-line buffering, then (flushing any open
table) the per-line classification. -/
def step (st : ConvState) (line : List Char) : ConvState :=
  let stripped := pyStrip line
  if fence.isPrefixOf stripped then
    if st.in_code_block then closeCodeBlock st
    else
      let st1 := if st.in_table then flushTable st else st
      { st1 with in_code_block := true }
  else if st.in_code_block then
    { st with code_lines := st.code_lines ++ [line] }
  else if isTableLine stripped then
    if st.in_table then { st with table_lines := st.table_lines ++ [stripped] }
    else { st with in_table := true, table_lines := [stripped] }
  else
    let st1 := if st.in_table then flushTable st else st
    classify st1 stripped

/-- The whole conversion loop: fold `step` over the lines, then flush
a still-open table buffer (and only a table buffer) at end of
input. -/
def convertStory (lines : List (List Char)) : List Flowable :=
  let st := lines.foldl step initState
  st.story ++ (if st.in_table then tableFlowablesEnd st.table_lines else [])

/-! ## Helper lemmas: escaping -/

theorem flatMap_id_of {f : Char → List Char} {t : List Char}
    (h : ∀ c ∈ t, f c = [c]) : t.flatMap f = t := by
  induction t with
  | nil => rfl
  | cons c r ih =>
    rw [List.flatMap_cons, h c (by simp), ih (fun d hd => h d (by simp [hd]))]
    rfl

theorem escAmp_cases (c : Char) : escAmp c = ampRep ∨ escAmp c = [c] := by
  unfold escAmp; split <;> simp

theorem escLt_cases (c : Char) : escLt c = ltRep ∨ escLt c = [c] := by
  unfold escLt; split <;> simp

theorem escGt_cases (c : Char) : escGt c = gtRep ∨ escGt c = [c] := by
  unfold escGt; split <;> simp

theorem mem_flatMap_rep {f : Char → List Char} {rep : List Char} {x : Char} {t : List Char}
    (hf : ∀ c, f c = rep ∨ f c = [c]) (hx : x ∈ t.flatMap f) : x ∈ rep ∨ x ∈ t := by
  rcases List.mem_flatMap.mp hx with ⟨a, ha, hxa⟩
  rcases hf a with h | h
  · rw [h] at hxa; exact Or.inl hxa
  · rw [h] at hxa
    simp only [List.mem_singleton] at hxa
    exact Or.inr (hxa ▸ ha)

theorem not_mem_flatMap_escLt (u : List Char) : '<' ∉ u.flatMap escLt := by
  intro h
  rcases List.mem_flatMap.mp h with ⟨a, _, hm⟩
  by_cases ha : a = '<'
  · rw [ha] at hm
    exact absurd hm (by decide)
  · have : escLt a = [a] := by simp [escLt, ha]
    rw [this] at hm
    simp only [List.mem_singleton] at hm
    exact ha hm.symm

theorem not_mem_flatMap_escGt (u : List Char) : '>' ∉ u.flatMap escGt := by
  intro h
  rcases List.mem_flatMap.mp h with ⟨a, _, hm⟩
  by_cases ha : a = '>'
  · rw [ha] at hm
    exact absurd hm (by decide)
  · have : escGt a = [a] := by simp [escGt, ha]
    rw [this] at hm
    simp only [List.mem_singleton] at hm
    exact ha hm.symm

theorem escape_xml_no_lt (t : List Char) : '<' ∉ escape_xml t := by
  intro h
  unfold escape_xml at h
  rcases mem_flatMap_rep escGt_cases h with h1 | h1
  · exact absurd h1 (by decide)
  · exact not_mem_flatMap_escLt _ h1

theorem escape_xml_no_gt (t : List Char) : '>' ∉ escape_xml t := by
  intro h
  exact not_mem_flatMap_escGt _ h

theorem not_mem_escape_xml {x : Char} (hx1 : x ∉ ampRep) (hx2 : x ∉ ltRep)
    (hx3 : x ∉ gtRep) {t : List Char} (ht : x ∉ t) : x ∉ escape_xml t := by
  intro h
  unfold escape_xml at h
  rcases mem_flatMap_rep escGt_cases h with h | h
  · exact hx3 h
  rcases mem_flatMap_rep escLt_cases h with h | h
  · exact hx2 h
  rcases mem_flatMap_rep escAmp_cases h with h | h
  · exact hx1 h
  · exact ht h

theorem escape_xml_id {t : List Char} (h1 : '&' ∉ t) (h2 : '<' ∉ t) (h3 : '>' ∉ t) :
    escape_xml t = t := by
  unfold escape_xml
  have e1 : t.flatMap escAmp = t :=
    flatMap_id_of (fun c hc => by
      have hne : c ≠ '&' := fun he => h1 (he ▸ hc)
      simp [escAmp, hne])
  rw [e1]
  have e2 : t.flatMap escLt = t :=
    flatMap_id_of (fun c hc => by
      have hne : c ≠ '<' := fun he => h2 (he ▸ hc)
      simp [escLt, hne])
  rw [e2]
  exact flatMap_id_of (fun c hc => by
    have hne : c ≠ '>' := fun he => h3 (he ▸ hc)
    simp [escGt, hne])

/-! ## Helper lemmas: inline substitution -/

theorem subScanAux_id (dh : Char) (dt : List Char) (bad : Char → Bool) (pre post : List Char) :
    ∀ (fuel : Nat) (s : List Char), dh ∉ s →
      subScanAux (dh :: dt) bad pre post fuel s = s := by
  intro fuel
  induction fuel with
  | zero => intro s _; cases s <;> rfl
  | succ n ih =>
    intro s hs
    cases s with
    | nil => rfl
    | cons c r =>
      have hdc : dh ≠ c := fun h => hs (h ▸ List.mem_cons_self c r)
      have hpre : (dh :: dt).isPrefixOf (c :: r) = false := by
        have : (dh :: dt).isPrefixOf (c :: r) = (dh == c && dt.isPrefixOf r) := rfl
        rw [this, beq_eq_false_iff_ne.mpr hdc, Bool.false_and]
      show (if (dh :: dt).isPrefixOf (c :: r) = true then _ else _) = _
      rw [hpre]
      simp only [Bool.false_eq_true, if_false]
      rw [ih r (fun h => hs (List.mem_cons_of_mem c h))]

theorem subScan_id (dh : Char) (dt : List Char) (bad : Char → Bool) (pre post : List Char)
    {s : List Char} (hs : dh ∉ s) : subScan (dh :: dt) bad pre post s = s :=
  subScanAux_id dh dt bad pre post s.length s hs

theorem apply_inline_formatting_id {t : List Char} (h1 : star ∉ t) (h2 : btick ∉ t) :
    apply_inline_formatting t = t := by
  unfold apply_inline_formatting
  rw [subScan_id star [star, star] isNL biOpen biClose h1,
      subScan_id star [star] isNL bOpen bClose h1,
      subScan_id star [] isNL iOpen iClose h1,
      subScan_id btick [] isBtick codeOpen codeClose h2]

/-! ## Claim C7 -/

/-- Claim C7: on every input string containing no inline markup
characters (no emphasis marker `*` and no backquote),
`apply_inline_formatting` is the identity. -/
theorem C7_inline_identity : ∀ t : List Char, star ∉ t → btick ∉ t →
    apply_inline_formatting t = t :=
  fun _ h1 h2 => apply_inline_formatting_id h1 h2

/-- Witness for C7 at a concrete markup-free string. -/
theorem C7_inline_identity_witness :
    star ∉ "Just plain text, no markup at all.".toList ∧
    btick ∉ "Just plain text, no markup at all.".toList ∧
    apply_inline_formatting "Just plain text, no markup at all.".toList =
      "Just plain text, no markup at all.".toList :=
  ⟨by decide, by decide,
    C7_inline_identity "Just plain text, no markup at all.".toList (by decide) (by decide)⟩

/-! ## Claim C5 -/

/-- Claim C5: reserved-character escaping is applied before inline
markup interpretation — the rendering pipeline is exactly
`apply_inline_formatting ∘ escape_xml`, the escaped text contains no
raw `<` or `>` at all, and on a line without markup characters the
pipeline output is exactly the escaped text (so a literal `<b>` in the
source survives as visible escaped text and is never turned into a
formatting tag). -/
theorem C5_escape_before_markup :
    ∀ t : List Char,
      formatText t = apply_inline_formatting (escape_xml t) ∧
      '<' ∉ escape_xml t ∧ '>' ∉ escape_xml t ∧
      (star ∉ t → btick ∉ t →
        formatText t = escape_xml t ∧ '<' ∉ formatText t ∧ '>' ∉ formatText t) := by
  intro t
  refine ⟨rfl, escape_xml_no_lt t, escape_xml_no_gt t, fun h1 h2 => ?_⟩
  have hs : star ∉ escape_xml t :=
    not_mem_escape_xml (by decide) (by decide) (by decide) h1
  have hb : btick ∉ escape_xml t :=
    not_mem_escape_xml (by decide) (by decide) (by decide) h2
  have he : formatText t = escape_xml t := apply_inline_formatting_id hs hb
  exact ⟨he, he ▸ escape_xml_no_lt t, he ▸ escape_xml_no_gt t⟩

/-- Witness for C5 at the literal source text `<b>x</b>`: the output
is the escaped, visible text, not bold markup. -/
theorem C5_escape_before_markup_witness :
    star ∉ "<b>x</b>".toList ∧ btick ∉ "<b>x</b>".toList ∧
    (formatText "<b>x</b>".toList = escape_xml "<b>x</b>".toList ∧
      '<' ∉ formatText "<b>x</b>".toList ∧ '>' ∉ formatText "<b>x</b>".toList) ∧
    formatText "<b>x</b>".toList = "&lt;b&gt;x&lt;/b&gt;".toList :=
  ⟨by decide, by decide,
    (C5_escape_before_markup "<b>x</b>".toList).2.2.2 (by decide) (by decide),
    by rfl⟩

/-! ## Helper lemmas: splitting on a separator character -/

theorem consHead_ne_nil (c : Char) (X : List (List Char)) : consHead c X ≠ [] := by
  cases X <;> simp [consHead]

theorem splitOnC_ne_nil (sep : Char) : ∀ s : List Char, splitOnC sep s ≠ [] := by
  intro s
  cases s with
  | nil => simp [splitOnC]
  | cons c r =>
    unfold splitOnC
    by_cases hc : c = sep
    · rw [if_pos hc]; simp
    · rw [if_neg hc]; exact consHead_ne_nil c _

theorem consHead_length (c : Char) {X : List (List Char)} (h : X ≠ []) :
    (consHead c X).length = X.length := by
  cases X with
  | nil => exact absurd rfl h
  | cons r rs => rfl

theorem splitOnC_length (sep : Char) : ∀ s : List Char,
    (splitOnC sep s).length = s.count sep + 1 := by
  intro s
  induction s with
  | nil => rfl
  | cons c r ih =>
    unfold splitOnC
    by_cases hc : c = sep
    · rw [if_pos hc, List.length_cons, ih, List.count_cons]
      simp [hc]
    · rw [if_neg hc, consHead_length c (splitOnC_ne_nil sep r), ih, List.count_cons]
      have hbc : (c == sep) = false := beq_eq_false_iff_ne.mpr hc
      rw [hbc]
      simp

theorem splitOnC_not_mem (sep : Char) : ∀ s : List Char, sep ∉ s → splitOnC sep s = [s] := by
  intro s
  induction s with
  | nil => intro _; rfl
  | cons c r ih =>
    intro h
    have hc : c ≠ sep := fun he => h (he ▸ List.mem_cons_self c r)
    unfold splitOnC
    rw [if_neg hc, ih (fun hm => h (List.mem_cons_of_mem c hm))]
    rfl

theorem splitOnC_append_sep {t : List Char} (ht : '|' ∉ t) :
    ∀ s : List Char,
      splitOnC '|' (s ++ '|' :: t) = (splitOnC '|' (s ++ ['|'])).dropLast ++ [t] := by
  intro s
  induction s with
  | nil =>
    simp only [List.nil_append]
    simp [splitOnC, splitOnC_not_mem '|' t ht]
  | cons c s' ih =>
    by_cases hc : c = '|'
    · subst hc
      simp only [List.cons_append]
      unfold splitOnC
      rw [if_pos rfl, if_pos rfl, ih]
      have hne := splitOnC_ne_nil '|' (s' ++ ['|'])
      cases hX : splitOnC '|' (s' ++ ['|']) with
      | nil => exact absurd hX hne
      | cons x xs => simp
    · simp only [List.cons_append]
      unfold splitOnC
      rw [if_neg hc, if_neg hc, ih]
      have h2 : 2 ≤ (splitOnC '|' (s' ++ ['|'])).length := by
        rw [splitOnC_length]
        have hm : '|' ∈ s' ++ ['|'] := List.mem_append_right _ (by simp)
        have := List.count_pos_iff.mpr hm
        omega
      cases hX : splitOnC '|' (s' ++ ['|']) with
      | nil => rw [hX] at h2; simp at h2
      | cons x xs =>
        cases xs with
        | nil => rw [hX] at h2; simp at h2
        | cons y ys => simp [consHead]

theorem rowCells_append_sep (s t : List Char) (ht : '|' ∉ t) :
    rowCells (s ++ '|' :: t) = rowCells (s ++ ['|']) := by
  unfold rowCells
  rw [splitOnC_append_sep ht s]
  have h2 : 2 ≤ (splitOnC '|' (s ++ ['|'])).length := by
    rw [splitOnC_length]
    have hm : '|' ∈ s ++ ['|'] := List.mem_append_right _ (by simp)
    have := List.count_pos_iff.mpr hm
    omega
  have h1 : 1 ≤ (splitOnC '|' (s ++ ['|'])).dropLast.length := by
    rw [List.length_dropLast]; omega
  rw [List.drop_append_of_le_length h1, List.dropLast_concat]
  congr 1
  rw [List.dropLast_eq_take, List.dropLast_eq_take, List.drop_take, List.length_drop]

/-! ## Helper lemmas: stripping around a pipe -/

theorem mem_rstrip {x : Char} {t : List Char} (h : x ∈ rstrip t) : x ∈ t := by
  unfold rstrip at h
  rw [List.mem_reverse] at h
  exact List.mem_reverse.mp ((List.dropWhile_sublist _).mem h)

theorem rstrip_append_pipe (s t : List Char) :
    rstrip (s ++ '|' :: t) = s ++ '|' :: rstrip t := by
  unfold rstrip
  rw [List.reverse_append, List.reverse_cons, List.append_assoc, List.singleton_append,
      List.dropWhile_append]
  by_cases he : (t.reverse.dropWhile isPySpace).isEmpty
  · rw [if_pos he]
    have h0 : t.reverse.dropWhile isPySpace = [] := by
      cases hE : t.reverse.dropWhile isPySpace
      · rfl
      · rw [hE] at he; simp at he
    rw [show ('|' :: s.reverse).dropWhile isPySpace = '|' :: s.reverse from by
      rw [List.dropWhile_cons, if_neg (by decide : ¬isPySpace '|' = true)], h0]
    simp
  · rw [if_neg he]
    rw [List.reverse_append, List.reverse_cons, List.reverse_reverse]
    simp

theorem lstrip_append (s u : List Char) :
    lstrip (s ++ u) = if (lstrip s).isEmpty then lstrip u else lstrip s ++ u := by
  unfold lstrip
  exact List.dropWhile_append

theorem lstrip_cons_pipe (u : List Char) : lstrip ('|' :: u) = '|' :: u := by
  unfold lstrip
  rw [List.dropWhile_cons, if_neg (by decide : ¬isPySpace '|' = true)]

theorem pyStrip_append_pipe (s t : List Char) :
    pyStrip (s ++ '|' :: t) = lstrip (s ++ '|' :: rstrip t) := by
  unfold pyStrip
  rw [rstrip_append_pipe]

theorem parse_table_single_append_sep (s t : List Char) (ht : '|' ∉ t) :
    parse_table [s ++ '|' :: t] = parse_table [s ++ ['|']] := by
  show tableStep [] (s ++ '|' :: t) = tableStep [] (s ++ ['|'])
  have hu : '|' ∉ rstrip t := fun hm => ht (mem_rstrip hm)
  have e1 : pyStrip (s ++ '|' :: t) = lstrip (s ++ '|' :: rstrip t) := pyStrip_append_pipe s t
  have e2 : pyStrip (s ++ ['|']) = lstrip (s ++ '|' :: ([] : List Char)) := by
    have := pyStrip_append_pipe s []
    simpa using this
  unfold tableStep
  rw [e1, e2, lstrip_append, lstrip_append]
  by_cases he : (lstrip s).isEmpty
  · rw [if_pos he, if_pos he, lstrip_cons_pipe, lstrip_cons_pipe]
    have hcells : rowCells ('|' :: rstrip t) = rowCells ('|' :: ([] : List Char)) := by
      have := rowCells_append_sep [] (rstrip t) hu
      simpa using this
    rw [hcells]
    rfl
  · rw [if_neg he, if_neg he]
    cases hs0 : lstrip s with
    | nil => rw [hs0] at he; simp at he
    | cons c s0 =>
      by_cases hcp : c = '|'
      · subst hcp
        have hc1 : rowCells (('|' :: s0) ++ '|' :: rstrip t) = rowCells (('|' :: s0) ++ ['|']) :=
          rowCells_append_sep ('|' :: s0) (rstrip t) hu
        rw [show ('|' :: s0) ++ '|' :: rstrip t = '|' :: (s0 ++ '|' :: rstrip t) from rfl] at hc1
        rw [show ('|' :: s0) ++ ['|'] = '|' :: (s0 ++ ['|']) from rfl] at hc1
        rw [show (s0 ++ ['|'] : List Char) = s0 ++ '|' :: ([] : List Char) from rfl] at hc1
        simp only [List.cons_append, hc1]
        simp [startsWithPipe]
      · have hsw1 : startsWithPipe ((c :: s0) ++ '|' :: rstrip t) = false := by
          simp [startsWithPipe, hcp]
        have hsw2 : startsWithPipe ((c :: s0) ++ '|' :: ([] : List Char)) = false := by
          simp [startsWithPipe, hcp]
        rw [hsw1, hsw2]
        simp

/-! ## Claim C9 -/

/-- Claim C9: the cells of a table line come only from the text
strictly between the first and the last pipe — appending pipe-free
text after the final pipe of a line changes neither the extracted
cells nor the parsed table. -/
theorem C9_cells_between_pipes : ∀ s t : List Char, '|' ∉ t →
    rowCells (s ++ '|' :: t) = rowCells (s ++ ['|']) ∧
    parse_table [s ++ '|' :: t] = parse_table [s ++ ['|']] :=
  fun s t ht => ⟨rowCells_append_sep s t ht, parse_table_single_append_sep s t ht⟩

/-- Witness for C9: in `| a | b` the text ` b` after the last pipe is
dropped and never becomes a cell. -/
theorem C9_cells_between_pipes_witness :
    '|' ∉ " b".toList ∧
    (rowCells ("| a ".toList ++ '|' :: " b".toList) =
        rowCells ("| a ".toList ++ ['|']) ∧
      parse_table ["| a ".toList ++ '|' :: " b".toList] =
        parse_table ["| a ".toList ++ ['|']]) ∧
    parse_table ["| a | b".toList] = [["a".toList]] :=
  ⟨by decide, C9_cells_between_pipes "| a ".toList " b".toList (by decide), by decide⟩

/-! ## Helper lemmas: rows produced by parse_table -/

theorem count_of_isTableLine {s : List Char} (h : isTableLine s = true) :
    2 ≤ s.count '|' := by
  cases s with
  | nil => simp [isTableLine, startsWithPipe] at h
  | cons c r =>
    unfold isTableLine startsWithPipe at h
    rw [Bool.and_eq_true] at h
    obtain ⟨h1, h2⟩ := h
    have hc : c = '|' := by simpa using h1
    have hr : '|' ∈ r := by simpa using h2
    have hpos := List.count_pos_iff.mpr hr
    rw [List.count_cons, hc]
    simp only [beq_self_eq_true, if_true]
    omega

theorem rowCells_length_of_isTableLine {s : List Char} (h : isTableLine s = true) :
    1 ≤ (rowCells s).length := by
  have hc := count_of_isTableLine h
  unfold rowCells
  rw [List.length_map, List.length_dropLast, List.length_drop, splitOnC_length]
  omega

theorem foldl_tableStep_mem :
    ∀ (lines : List (List Char)) (acc : List (List (List Char))) (row : List (List Char)),
      row ∈ lines.foldl tableStep acc →
      row ∈ acc ∨ ∃ l ∈ lines, startsWithPipe (pyStrip l) = true ∧
        isSepRow (rowCells (pyStrip l)) = false ∧ row = rowCells (pyStrip l) := by
  intro lines
  induction lines with
  | nil => intro acc row h; exact Or.inl h
  | cons l ls ih =>
    intro acc row h
    rw [List.foldl_cons] at h
    rcases ih (tableStep acc l) row h with hmem | ⟨l', hl', h1, h2, h3⟩
    · unfold tableStep at hmem
      by_cases hp : startsWithPipe (pyStrip l) = true
      · rw [if_pos hp] at hmem
        by_cases hsep : isSepRow (rowCells (pyStrip l)) = true
        · rw [if_pos hsep] at hmem; exact Or.inl hmem
        · rw [if_neg hsep] at hmem
          rcases List.mem_append.mp hmem with hmem | hmem
          · exact Or.inl hmem
          · have hrow : row = rowCells (pyStrip l) := by simpa using hmem
            exact Or.inr ⟨l, List.mem_cons_self l ls, hp,
              Bool.eq_false_iff.mpr hsep, hrow⟩
      · rw [if_neg hp] at hmem; exact Or.inl hmem
    · exact Or.inr ⟨l', List.mem_cons_of_mem l hl', h1, h2, h3⟩

theorem parse_table_rows_shape (lines : List (List Char))
    (h : ∀ l ∈ lines, isTableLine (pyStrip l) = true) :
    ∀ row ∈ parse_table lines, 1 ≤ row.length ∧ ∃ c ∈ row, isSepCellB c = false := by
  intro row hrow
  rcases foldl_tableStep_mem lines [] row hrow with h0 | ⟨l, hl, _, hsep, hre⟩
  · simp at h0
  · subst hre
    have htl := h l hl
    have hlen : 1 ≤ (rowCells (pyStrip l)).length := rowCells_length_of_isTableLine htl
    refine ⟨hlen, ?_⟩
    unfold isSepRow at hsep
    have hne : (rowCells (pyStrip l)).isEmpty = false := by
      cases hX : rowCells (pyStrip l) with
      | nil => rw [hX] at hlen; simp at hlen
      | cons x xs => rfl
    rw [hne] at hsep
    simp only [Bool.not_false, Bool.true_and] at hsep
    rcases List.all_eq_false.mp hsep with ⟨c, hc, hcf⟩
    exact ⟨c, hc, Bool.eq_false_iff.mpr hcf⟩

/-! ## Claim C4 -/

/-- Claim C4: a separator row — all of whose cells match `[-:]+` — is
discarded by `parse_table`: removing such a line from the input leaves
the parsed rows unchanged, and on table-shaped buffered lines (the
only lines the converter ever buffers) every produced row keeps a cell
that is not a separator cell, so a separator row never appears among
the rows of the produced table. -/
theorem C4_separator_rows_discarded :
    (∀ (pre post : List (List Char)) (line : List Char),
        startsWithPipe (pyStrip line) = true →
        isSepRow (rowCells (pyStrip line)) = true →
        parse_table (pre ++ line :: post) = parse_table (pre ++ post)) ∧
    (∀ lines : List (List Char), (∀ l ∈ lines, isTableLine (pyStrip l) = true) →
        ∀ row ∈ parse_table lines, ∃ c ∈ row, isSepCellB c = false) := by
  constructor
  · intro pre post line h1 h2
    unfold parse_table
    rw [List.foldl_append, List.foldl_append, List.foldl_cons]
    have hstep : tableStep (List.foldl tableStep [] pre) line = List.foldl tableStep [] pre := by
      unfold tableStep
      rw [if_pos h1, if_pos h2]
    rw [hstep]
  · intro lines h row hrow
    exact (parse_table_rows_shape lines h row hrow).2

/-- Witness for C4: dropping the separator line of a small table
leaves the parsed rows unchanged. -/
theorem C4_separator_rows_discarded_witness :
    (startsWithPipe (pyStrip "| --- | --- |".toList) = true ∧
      isSepRow (rowCells (pyStrip "| --- | --- |".toList)) = true) ∧
    parse_table (["| a | b |".toList] ++ "| --- | --- |".toList :: ["| c | d |".toList]) =
      parse_table (["| a | b |".toList] ++ ["| c | d |".toList]) ∧
    parse_table ["| a | b |".toList, "| --- | --- |".toList, "| c | d |".toList] =
      [["a".toList, "b".toList], ["c".toList, "d".toList]] :=
  ⟨⟨by decide, by decide⟩,
    C4_separator_rows_discarded.1 ["| a | b |".toList] ["| c | d |".toList]
      "| --- | --- |".toList (by decide) (by decide),
    by decide⟩

/-! ## Claim C3 -/

/-- Claim C3: after normalization by the table builder every body row
has exactly the header's cell count — cell `j` of a normalized body
row is the formatted original cell when the row has one at `j` and a
formatted empty cell otherwise (right-padding), while cells beyond the
header's width are dropped (the normalized length never exceeds the
header's).  On the table-shaped lines the converter buffers, every
parsed row is non-empty, so the header itself always has at least one
column. -/
theorem C3_row_normalization :
    ∀ (header : List (List Char)) (body : List (List (List Char)))
      (row : List (List Char)) (j : Nat), row ∈ body → j < header.length →
      build_table_data (header :: body) =
        some (header.map escape_xml :: body.map (tableBodyRow header)) ∧
      tableBodyRow header row ∈ body.map (tableBodyRow header) ∧
      (tableBodyRow header row).length = header.length ∧
      (tableBodyRow header row)[j]? = some (fmtCell ((row[j]?).getD [])) ∧
      (∀ lines : List (List Char), (∀ l ∈ lines, isTableLine (pyStrip l) = true) →
        ∀ r ∈ parse_table lines, 1 ≤ r.length) := by
  intro header body row j hrow hj
  refine ⟨rfl, List.mem_map_of_mem _ hrow, ?_, ?_,
    fun lines h r hr => (parse_table_rows_shape lines h r hr).1⟩
  · unfold tableBodyRow
    rw [List.length_map, List.length_take, List.length_append, List.length_replicate]
    omega
  · unfold tableBodyRow
    rw [List.getElem?_map, List.getElem?_take_of_lt hj]
    by_cases hjr : j < row.length
    · rw [List.getElem?_append_left hjr, List.getElem?_eq_getElem hjr]
      simp
    · rw [List.getElem?_append_right (Nat.le_of_not_lt hjr),
          List.getElem?_replicate, if_pos (by omega),
          List.getElem?_eq_none (Nat.le_of_not_lt hjr)]
      simp

/-- Witness for C3: one body row with one cell under a two-column
header is padded to two cells, the second being empty. -/
theorem C3_row_normalization_witness :
    (tableBodyRow ["h".toList, "k".toList] ["a".toList]).length =
      (["h".toList, "k".toList] : List (List Char)).length ∧
    tableBodyRow ["h".toList, "k".toList] ["a".toList] = ["a".toList, []] :=
  ⟨(C3_row_normalization ["h".toList, "k".toList] [["a".toList]] ["a".toList] 1
      (by decide) (by decide)).2.2.1,
    by decide⟩

/-! ## Claim C6 -/

theorem wrapLineAux_le (fuel : Nat) : ∀ cl : List Char, cl.length ≤ fuel + 95 →
    ∀ s ∈ wrapLineAux fuel cl, s.length ≤ 95 := by
  induction fuel with
  | zero =>
    intro cl h s hs
    unfold wrapLineAux at hs
    simp only [List.mem_singleton] at hs
    subst hs; simpa using h
  | succ n ih =>
    intro cl h s hs
    unfold wrapLineAux at hs
    by_cases h95 : 95 < cl.length
    · rw [if_pos h95] at hs
      rcases List.mem_cons.mp hs with h1 | h1
      · subst h1; simp [List.length_take]
      · exact ih (cl.drop 95) (by rw [List.length_drop]; omega) s h1
    · rw [if_neg h95] at hs
      simp only [List.mem_singleton] at hs
      subst hs; omega

theorem wrapLineAux_flatten (fuel : Nat) : ∀ cl : List Char,
    (wrapLineAux fuel cl).flatten = cl := by
  induction fuel with
  | zero => intro cl; simp [wrapLineAux]
  | succ n ih =>
    intro cl
    unfold wrapLineAux
    by_cases h95 : 95 < cl.length
    · rw [if_pos h95]
      simp [ih, List.take_append_drop]
    · rw [if_neg h95]; simp

/-- Claim C6: every hard-wrapped segment of a code line has length at
most 95, the segments concatenate back to the original line, and the
end-to-end scenario — a fenced code block whose single line has 200
characters — produces exactly one `Preformatted` flowable whose line
is split into three segments of lengths 95, 95 and 10. -/
theorem C6_code_wrap :
    (∀ cl : List Char, (∀ s ∈ wrapLine cl, s.length ≤ 95) ∧ (wrapLine cl).flatten = cl) ∧
    wrapLine (List.replicate 200 'a') =
      [List.replicate 95 'a', List.replicate 95 'a', List.replicate 10 'a'] ∧
    convertStory [fence, List.replicate 200 'a', fence] =
      [Flowable.Pre (joinNL [List.replicate 95 'a', List.replicate 95 'a',
        List.replicate 10 'a'])] := by
  refine ⟨fun cl => ⟨fun s hs => wrapLineAux_le cl.length cl (by omega) s hs,
    wrapLineAux_flatten cl.length cl⟩, by decide, by decide⟩

/-- Witness for C6 at the 200-character line. -/
theorem C6_code_wrap_witness :
    List.replicate 95 'a' ∈ wrapLine (List.replicate 200 'a') ∧
    (List.replicate 95 'a').length ≤ 95 :=
  ⟨by decide, (C6_code_wrap.1 (List.replicate 200 'a')).1 (List.replicate 95 'a') (by decide)⟩

/-! ## Claim C8 -/

/-- Claim C8: when the buffered lines parse to an empty row list, the
table builder returns nothing and neither a table nor its trailing
spacer is appended to the story — in both the mid-document flush and
the end-of-input flush. -/
theorem C8_malformed_table_graceful :
    ∀ tl : List (List Char), parse_table tl = [] →
      build_table_data (parse_table tl) = none ∧
      tableFlowablesMid tl = [] ∧ tableFlowablesEnd tl = [] := by
  intro tl h
  refine ⟨by rw [h]; rfl, ?_, ?_⟩
  · unfold tableFlowablesMid
    rw [h]
    rfl
  · unfold tableFlowablesEnd
    rw [h]
    rfl

/-- Witness for C8: a table consisting only of a separator row parses
to no rows, emits no flowable, and the whole conversion of that line
produces an empty story without failing. -/
theorem C8_malformed_table_graceful_witness :
    parse_table ["| --- | --- |".toList] = [] ∧
    (build_table_data (parse_table ["| --- | --- |".toList]) = none ∧
      tableFlowablesMid ["| --- | --- |".toList] = [] ∧
      tableFlowablesEnd ["| --- | --- |".toList] = []) ∧
    convertStory ["| --- | --- |".toList] = [] :=
  ⟨by decide, C8_malformed_table_graceful ["| --- | --- |".toList] (by decide), by decide⟩

/-! ## Claim C10 -/

/-- Claim C10: the header row of the built table is only XML-escaped
— never inline-formatted — while body cells are escaped and then
inline-formatted; consequently a markup-free-of-specials cell string
is rendered literally in the header (emphasis markers survive) but
inline-formatted in a body row. -/
theorem C10_header_escaped_body_formatted :
    ∀ (header : List (List Char)) (body : List (List (List Char))),
      build_table_data (header :: body) =
        some (header.map escape_xml :: body.map (tableBodyRow header)) ∧
      (∀ c : List Char, '&' ∉ c → '<' ∉ c → '>' ∉ c →
        escape_xml c = c ∧ tableBodyRow [c] [c] = [apply_inline_formatting c]) := by
  intro header body
  refine ⟨rfl, fun c h1 h2 h3 => ?_⟩
  have he : escape_xml c = c := escape_xml_id h1 h2 h3
  refine ⟨he, ?_⟩
  unfold tableBodyRow
  simp [fmtCell, formatText, he]

/-- Witness for C10 at the cell text `*x*`: literal in a header,
italicized in a body row. -/
theorem C10_header_escaped_body_formatted_witness :
    ('&' ∉ "*x*".toList ∧ '<' ∉ "*x*".toList ∧ '>' ∉ "*x*".toList) ∧
    (escape_xml "*x*".toList = "*x*".toList ∧
      tableBodyRow ["*x*".toList] ["*x*".toList] = [apply_inline_formatting "*x*".toList]) ∧
    apply_inline_formatting "*x*".toList = "<i>x</i>".toList :=
  ⟨⟨by decide, by decide, by decide⟩,
    (C10_header_escaped_body_formatted ["*x*".toList] [["*x*".toList]]).2 "*x*".toList
      (by decide) (by decide) (by decide),
    by rfl⟩

/-! ## Claim C2 -/

/-- Claim C2 (amended): a table buffer still open at end-of-input is
flushed — when the buffered lines parse to at least one row, the story
ends with exactly the corresponding Table flowable. -/
theorem C2_amended_trailing_table_flushed :
    ∀ lines : List (List Char),
      (lines.foldl step initState).in_table = true →
      parse_table (lines.foldl step initState).table_lines ≠ [] →
      ∃ data,
        build_table_data (parse_table (lines.foldl step initState).table_lines) =
          some data ∧
        convertStory lines =
          (lines.foldl step initState).story ++ [Flowable.TableFl data] := by
  intro lines h1 h2
  rcases hrows : parse_table (lines.foldl step initState).table_lines with _ | ⟨hd, tl⟩
  · exact absurd hrows h2
  · refine ⟨hd.map escape_xml :: tl.map (tableBodyRow hd), rfl, ?_⟩
    show (lines.foldl step initState).story ++
        (if (lines.foldl step initState).in_table = true then
          tableFlowablesEnd (lines.foldl step initState).table_lines else []) = _
    rw [h1, if_pos rfl]
    unfold tableFlowablesEnd
    rw [hrows]
    rfl

/-- Counterexample for C2 as stated: a code fence left open at
end-of-input leaves its buffered content unflushed — the story is
empty, so the buffered code line is silently dropped and no CodeBlock
is produced. -/
theorem C2_counterexample_trailing_code_dropped :
    (([fence, "leftover secret".toList] : List (List Char)).foldl step
        initState).in_code_block = true ∧
    (([fence, "leftover secret".toList] : List (List Char)).foldl step
        initState).code_lines = ["leftover secret".toList] ∧
    convertStory [fence, "leftover secret".toList] = [] :=
  ⟨by decide, by decide, by decide⟩

/-- Witness for the amended C2 on a two-line table left open at
end-of-input. -/
theorem C2_amended_trailing_table_flushed_witness :
    ((["| a | b |".toList, "| 1 | 2 |".toList] : List (List Char)).foldl step
        initState).in_table = true ∧
    parse_table ((["| a | b |".toList, "| 1 | 2 |".toList] :
        List (List Char)).foldl step initState).table_lines ≠ [] ∧
    ∃ data,
      build_table_data (parse_table ((["| a | b |".toList, "| 1 | 2 |".toList] :
          List (List Char)).foldl step initState).table_lines) = some data ∧
      convertStory ["| a | b |".toList, "| 1 | 2 |".toList] =
        ((["| a | b |".toList, "| 1 | 2 |".toList] : List (List Char)).foldl step
            initState).story ++ [Flowable.TableFl data] :=
  ⟨by decide, by decide,
    C2_amended_trailing_table_flushed ["| a | b |".toList, "| 1 | 2 |".toList]
      (by decide) (by decide)⟩

/-! ## Claim C1 -/

/-- Counterexample for C1 as stated: on `# Title` / blank /
`Hello *world*.` the first produced block is a `divider_text`
paragraph, not an `h1` heading — the comment-style banner rule
(`^#\s+[A-Z...]`) fires before the heading rule because `T` is an
uppercase letter. -/
theorem C1_counterexample_title_renders_divider :
    convertStory ["# Title".toList, [], "Hello *world*.".toList] =
      [Flowable.Par "Title".toList Style.divider_text,
       Flowable.Par "Hello <i>world</i>.".toList Style.body] ∧
    Style.divider_text ≠ Style.h1 :=
  ⟨by decide, by decide⟩

/-- Claim C1 (amended): the scenario produces exactly two blocks — a
banner/divider paragraph with text `Title` in the `divider_text`
style, then a body paragraph in which `world` is italicized. -/
theorem C1_amended_divider_then_italic_paragraph :
    convertStory ["# Title".toList, [], "Hello *world*.".toList] =
      [Flowable.Par "Title".toList Style.divider_text,
       Flowable.Par "Hello <i>world</i>.".toList Style.body] ∧
    containsSub "<i>world</i>".toList "Hello <i>world</i>.".toList = true :=
  ⟨by decide, by decide⟩
